import Mathlib

/-!
Shallow embedding of `b2/writer.go` (package b2): the chunking upload writer.

Pure Go functions become Lean functions; the writer's mutable fields become an
explicit state record threaded through each operation; the external
collaborators (remote endpoints, the retryability classifier) are supplied as
an environment of call outcomes.  Side effects that the verified properties
observe (chunk hand-offs, whole-object upload attempts, queue closure, worker
drain, session finish) are recorded in an event trace inside the state.
-/

namespace Blazer

/-- Bytes are modelled as natural numbers; the properties only depend on the
lengths and identities of byte lists, never on bit-level contents. -/
abbrev Byte := Nat

/-- Go `error` values are modelled as strings; `none` stands for Go `nil`. -/
abbrev Err := String

/-- The error the worker builds at writer.go line 120 when a resumed chunk's
hash differs from the stored one. -/
def resumeMismatchErr : Err := "resumable upload was requested, but chunks don't match!"

/-- The error `ctx.Err()` yields once the writer's context was cancelled
(returned by the `select` in `sendChunk`, writer.go line 295). -/
def ctxCanceledErr : Err := "context canceled"

/-- Observable side effects of the writer, recorded in order of occurrence. -/
inductive Ev where
  /-- The `once.Do` body of `sendChunk` ran successfully: `getLargeFile`
  succeeded, the `ready` channel was created and the worker pool started
  (writer.go lines 271-285). -/
  | poolStarted
  /-- A chunk was handed off on the `ready` channel (writer.go lines 289-296). -/
  | chunk (id : Nat) (data : List Byte)
  /-- One `uploadFile` network attempt of the simple whole-object path
  (writer.go line 206), carrying the accumulated buffer. -/
  | simpleAttempt (data : List Byte)
  /-- `close(w.ready)` (writer.go line 316). -/
  | queueClosed
  /-- `w.wg.Wait()` returned: all workers drained (writer.go line 317). -/
  | drained
  /-- `w.file.finishLargeFile` succeeded (writer.go line 318). -/
  | finished
deriving DecidableEq

/-- The writer's mutable fields (writer.go lines 39-80).  `sync.Once` gates
become booleans, the `context` is represented by its `cancelled` flag, channels
and the worker pool are represented through the event trace.  The `file` and
`o.f` handles are tracked only as the booleans `readyMade` and `objSet`;
`contentType`/`info` metadata is modelled separately for `WithAttrs`. -/
structure WState where
  /-- Public `ChunkSize` field.  Go's `int` can also be negative, which makes
  `Write` slice with a negative index and panic; that degenerate configuration
  is outside the model, so sizes are naturals. -/
  chunkSize : Nat
  /-- `w.csize`, set by the `start.Do` body on the first `Write`. -/
  csize : Nat
  /-- Whether the `start` `sync.Once` has fired. -/
  started : Bool
  /-- Whether the `once` `sync.Once` of `sendChunk` has fired. -/
  onceDone : Bool
  /-- Whether the `done` `sync.Once` of `Close` has fired. -/
  doneDone : Bool
  /-- Whether `w.ready` was created (equivalently, `w.file` was set): true iff
  the `once.Do` body ran and `getLargeFile` succeeded. -/
  readyMade : Bool
  /-- Whether `w.o.f` was assigned (simple upload or `finishLargeFile`). -/
  objSet : Bool
  /-- `w.w`, the accumulator write buffer; `none` is the nil interface value it
  holds before the first `Write` initializes it. -/
  buf : Option (List Byte)
  /-- `w.cidx`, the number of chunks handed off so far. -/
  cidx : Nat
  /-- `w.err`, the terminal error slot. -/
  err : Option Err
  /-- Whether `w.cancel()` has been called. -/
  cancelled : Bool
  /-- Trace of observable effects. -/
  trace : List Ev
deriving DecidableEq

/-- A freshly constructed writer with the given `ChunkSize`. -/
def initW (cs : Nat) : WState :=
  { chunkSize := cs, csize := 0, started := false, onceDone := false,
    doneDone := false, readyMade := false, objSet := false, buf := none,
    cidx := 0, err := none, cancelled := false, trace := [] }

/-- writer.go lines 82-93: `setErr`.  `nil` is a no-op; otherwise, if no error
is stored yet, store it and call `cancel()`. -/
def setErr (e : Option Err) (w : WState) : WState :=
  match e with
  | none => w
  | some _ => if w.err = none then { w with err := e, cancelled := true } else w

/-- writer.go lines 95-99: `getErr` returns the stored error. -/
def getErr (w : WState) : Option Err := w.err

/-- The effective chunk size the `start.Do` body computes (writer.go lines
165-168): the configured `ChunkSize`, defaulting to `1e8` when unset. -/
def effCsize (cs : Nat) : Nat := if cs = 0 then 100000000 else cs

/-- writer.go lines 164-170: the `start.Do` body of `Write`: fix `csize` and
create the memory buffer.  The buffer itself (`newMemoryBuffer`) is not under
src/.  Modelled from the spec: the Accumulator is "the not-yet-sent byte
buffer"; `Write` appends and reports the full length written with no error,
`Len` is its length. -/
def startDo (w : WState) : WState :=
  if w.started then w
  else { w with started := true, csize := effCsize w.chunkSize, buf := some [] }

/-- Outcomes of the external calls a writer run performs.  `none` entries mean
the call succeeded.  `urls` feeds the successive `getUploadURL` calls of
`simpleWriteFile`, `attempts` the successive `uploadFile` attempts; `cls` is
the external retryability classifier `w.o.b.r.reupload`. -/
structure Env where
  largeRes : Option Err
  finishRes : Option Err
  urls : List (Option Err)
  attempts : List (Option Err)
  cls : Option Err → Bool

/-- An environment in which every external call succeeds at once. -/
def happyEnv : Env :=
  { largeRes := none, finishRes := none, urls := [none], attempts := [none],
    cls := fun _ => false }

/-- Result of `sendChunk` as seen by its caller. -/
inductive SendRes where
  /-- Returned `nil`: the chunk was handed off. -/
  | ok
  /-- Returned a non-nil error. -/
  | fail (e : Err)
  /-- The `ready` channel is nil (the `once` body failed earlier) and the
  context is live: the send blocks forever.  Unreachable from `initW`. -/
  | blocked
  /-- The buffer interface is nil; the queued chunk would make a worker panic.
  Unreachable from `initW`. -/
  | nilBuf
deriving DecidableEq

/-- writer.go lines 289-299: the part of `sendChunk` after the `once.Do`
gate: the chunk `{cidx+1, w.w}` is offered on `ready` in a `select` racing
`ctx.Done()`, then `cidx` is bumped and a fresh buffer installed.  When the
context is already cancelled the workers have exited, so the model resolves
the `select` to the `ctx.Done()` branch. -/
def sendChunkPost (w : WState) : WState × SendRes :=
  if w.cancelled then (w, SendRes.fail ctxCanceledErr)
  else if w.readyMade = false then (w, SendRes.blocked)
  else
    match w.buf with
    | none => (w, SendRes.nilBuf)
    | some b =>
      let w2 := { w with
        trace := w.trace ++ [Ev.chunk (w.cidx + 1) b]
        cidx := w.cidx + 1
        buf := some [] }
      (w2, SendRes.ok)

/-- writer.go lines 269-300: `sendChunk`.  The `once.Do` body runs
`getLargeFile` (its outcome supplied by `env.largeRes`), creates the `ready`
channel and starts the workers; if it fails the `once` is still consumed and
the error is returned.  Then the chunk is offered to the workers
(`sendChunkPost`). -/
def sendChunk (env : Env) (w : WState) : WState × SendRes :=
  if w.onceDone then sendChunkPost w
  else
    match env.largeRes with
    | some e => ({ w with onceDone := true }, SendRes.fail e)
    | none =>
      sendChunkPost { w with
        onceDone := true
        readyMade := true
        trace := w.trace ++ [Ev.poolStarted] }

/-- Result of a `Write` call. -/
inductive WriteRes where
  /-- Normal return `(n, err)` with the post state. -/
  | ok (w : WState) (n : Nat) (e : Option Err)
  /-- The call blocked forever (send on a nil channel). -/
  | blocked (w : WState)
  /-- The call panicked (method call on the nil buffer interface, only
  possible on states unreachable from `initW`). -/
  | panicked
  /-- Model artefact: recursion fuel ran out.  Never arises for
  `fuel > p.length` on states reachable from `initW`. -/
  | noFuel
deriving DecidableEq

/-- writer.go lines 171-188: the body of `Write` once the error check and the
`start.Do` body have run and the buffer `b` is at hand: buffer a short input;
otherwise fill the buffer to capacity, hand the chunk off through `sendChunk`
(on error, `setErr` it and return `(i, getErr())`), and recurse on the
remainder through the continuation `rec` (Go's `w.Write(p[left:])`), whose
error is also fed to `setErr`.  `memoryBuffer.Write` (not under src/) is
modelled from the spec as total append, so its dead error branch is
dropped. -/
def writeCore (env : Env) (rec : WState → List Byte → WriteRes)
    (w : WState) (b p : List Byte) : WriteRes :=
  let left := w.csize - b.length
  if p.length < left then
    WriteRes.ok { w with buf := some (b ++ p) } p.length none
  else
    let w1 := { w with buf := some (b ++ p.take left) }
    match sendChunk env w1 with
    | (w2, SendRes.fail e) =>
      let w3 := setErr (some e) w2
      WriteRes.ok w3 left w3.err
    | (w2, SendRes.blocked) => WriteRes.blocked w2
    | (_, SendRes.nilBuf) => WriteRes.panicked
    | (w2, SendRes.ok) =>
      match rec w2 (p.drop left) with
      | WriteRes.ok w' k e =>
        let w'' := match e with
          | some e' => setErr (some e') w'
          | none => w'
        WriteRes.ok w'' (left + k) e
      | r => r

/-- writer.go lines 160-189: `Write`, with explicit recursion fuel standing in
for Go's recursion on `p[left:]`.  Checks `getErr` first, runs the `start.Do`
body, then runs `writeCore` with the recursive call as continuation. -/
def writeGo (env : Env) : Nat → WState → List Byte → WriteRes
  | 0, _, _ => WriteRes.noFuel
  | fuel + 1, w, p =>
    match w.err with
    | some e => WriteRes.ok w 0 (some e)
    | none =>
      let w := startDo w
      match w.buf with
      | none => WriteRes.panicked
      | some b => writeCore env (writeGo env fuel) w b p

/-- `Write` with enough fuel for its argument (each recursive call consumes at
least one byte of `p` on every state reachable from `initW`). -/
def write (env : Env) (w : WState) (p : List Byte) : WriteRes :=
  writeGo env (p.length + 1) w p

/-- Run a sequence of `Write` calls, stopping on any abnormal result. -/
def runWrites (env : Env) : WState → List (List Byte) → Option WState
  | w, [] => some w
  | w, p :: ps =>
    match write env w p with
    | WriteRes.ok w' _ _ => runWrites env w' ps
    | _ => none

/-- Primitive actions a retry loop performs, in order. -/
inductive RAct where
  /-- One upload network call (`uploadFile` or `uploadPart`). -/
  | attempt
  /-- `time.Sleep` of this many milliseconds. -/
  | sleep (ms : Nat)
  /-- Acquisition of a fresh upload endpoint (`getUploadURL` or
  `getUploadPartURL`). -/
  | newURL
deriving DecidableEq

/-- The sleeps a retry loop performed, in order, in milliseconds. -/
def sleepsOf (acts : List RAct) : List Nat :=
  acts.filterMap fun a =>
    match a with
    | RAct.sleep ms => some ms
    | _ => none

/-- Whether an action is an upload attempt. -/
def isAttempt (a : RAct) : Bool :=
  match a with
  | RAct.attempt => true
  | _ => false

/-- How many upload attempts a retry loop performed. -/
def attemptsOf (acts : List RAct) : Nat := (acts.filter isAttempt).length

/-- A retry-loop action trace with the sleeps removed. -/
def nonSleep (acts : List RAct) : List RAct :=
  acts.filter fun a =>
    match a with
    | RAct.sleep _ => false
    | _ => true

/-- Result of the `redo` retry loop of `simpleWriteFile`. -/
inductive LoopRes where
  /-- The loop returned with this error value (`none` = success). -/
  | done (e : Option Err)
  /-- Model artefact: the environment's outcome list ran out while the loop
  was still retrying. -/
  | out
deriving DecidableEq

/-- writer.go lines 205-218: the `redo` loop of `simpleWriteFile`.  Each
iteration performs one `uploadFile` attempt (its outcome drawn from the first
list); on a non-nil error it consults the classifier, and if retryable
acquires a fresh upload URL (outcome drawn from the second list) and loops.
The loop body contains no sleep, so no `RAct.sleep` is ever emitted. -/
def simpleRedo (cls : Option Err → Bool) :
    List (Option Err) → List (Option Err) → List RAct × LoopRes
  | [], _ => ([], LoopRes.out)
  | a :: as, urls =>
    match a with
    | none => ([RAct.attempt], LoopRes.done none)
    | some e =>
      if cls (some e) then
        match urls with
        | [] => ([RAct.attempt], LoopRes.out)
        | some e2 :: _ => ([RAct.attempt, RAct.newURL], LoopRes.done (some e2))
        | none :: us =>
          let r := simpleRedo cls as us
          (RAct.attempt :: RAct.newURL :: r.1, r.2)
      else ([RAct.attempt], LoopRes.done (some e))

/-- Result of `simpleWriteFile`. -/
inductive SimpleRes where
  /-- Returned with this error value, in this post state. -/
  | done (w : WState) (e : Option Err)
  /-- Panicked: `w.w.Hash()` was called on the nil buffer interface. -/
  | panicked
  /-- Model artefact: environment outcomes exhausted mid-loop. -/
  | out

/-- The trace events of a run of the simple path's retry loop: one
`Ev.simpleAttempt` per `uploadFile` call. -/
def simpleEvs (b : List Byte) (acts : List RAct) : List Ev :=
  acts.filterMap fun a =>
    match a with
    | RAct.attempt => some (Ev.simpleAttempt b)
    | _ => none

/-- The `redo` loop of `simpleWriteFile` together with its effect on the
writer state: record the attempts in the trace and, on success, assign
`w.o.f`. -/
def simpleLoopRun (cls : Option Err → Bool) (attempts us : List (Option Err))
    (w : WState) (b : List Byte) : SimpleRes :=
  match simpleRedo cls attempts us with
  | (_, LoopRes.out) => SimpleRes.out
  | (acts, LoopRes.done none) =>
    SimpleRes.done { w with trace := w.trace ++ simpleEvs b acts, objSet := true } none
  | (acts, LoopRes.done (some e')) =>
    SimpleRes.done { w with trace := w.trace ++ simpleEvs b acts } (some e')

/-- writer.go lines 191-221: `simpleWriteFile`.  Acquires an upload URL
(failure is returned directly), hashes the accumulator (a nil-interface
dereference when `Write` never ran), then runs the `redo` loop
(`simpleLoopRun`).  The content-type defaulting of lines 197-200 only shapes
the request metadata and is not observed by any verified property, so it is
not tracked. -/
def simpleWriteFile (env : Env) (w : WState) : SimpleRes :=
  match env.urls with
  | [] => SimpleRes.out
  | some e :: _ => SimpleRes.done w (some e)
  | none :: us =>
    match w.buf with
    | none => SimpleRes.panicked
    | some b => simpleLoopRun env.cls env.attempts us w b

/-- Result of `Close`. -/
inductive CloseRes where
  /-- Normal return of this error value. -/
  | ret (e : Option Err)
  /-- Panicked (nil buffer dereference, or `close` of a nil channel). -/
  | panicked
  /-- Blocked forever. -/
  | blocked
  /-- Model artefact: environment outcomes exhausted. -/
  | stuck
deriving DecidableEq

/-- The state after `close(w.ready)` and `w.wg.Wait()` (writer.go lines
316-317): the queue is closed and the workers drained. -/
def drainState (w1 : WState) : WState :=
  { w1 with trace := w1.trace ++ [Ev.queueClosed, Ev.drained] }

/-- writer.go lines 316-323: the tail of the `done.Do` body in the multipart
case: `close(w.ready)` (a panic when the channel was never created),
`wg.Wait()`, then `finishLargeFile`, whose failure goes to `setErr` and whose
success assigns `w.o.f`. -/
def closeFinish (env : Env) (w1 : WState) : WState × CloseRes :=
  if w1.readyMade = false then (w1, CloseRes.panicked)
  else
    let w2 := drainState w1
    match env.finishRes with
    | some e =>
      let w3 := setErr (some e) w2
      (w3, CloseRes.ret w3.err)
    | none =>
      let w3 := { w2 with objSet := true, trace := w2.trace ++ [Ev.finished] }
      (w3, CloseRes.ret w3.err)

/-- writer.go lines 310-315 and onward: the multipart part of the `done.Do`
body, given the accumulator contents `b`: a non-empty accumulator is flushed
as one final chunk through `sendChunk` (an error goes to `setErr` and ends
the body, a nil-channel send blocks), then the body proceeds to
`closeFinish`. -/
def closeFlush (env : Env) (w0 : WState) (b : List Byte) : WState × CloseRes :=
  if b.length > 0 then
    match sendChunk env w0 with
    | (w1, SendRes.ok) => closeFinish env w1
    | (w1, SendRes.fail e) =>
      let w2 := setErr (some e) w1
      (w2, CloseRes.ret w2.err)
    | (w1, SendRes.blocked) => (w1, CloseRes.blocked)
    | (w1, SendRes.nilBuf) => (w1, CloseRes.stuck)
  else closeFinish env w0

/-- writer.go lines 305-324: the `done.Do` body of `Close` (already gated):
with no chunk ever queued it delegates to `simpleWriteFile` and feeds the
result to `setErr`; otherwise it flushes a non-empty accumulator as a final
chunk through `sendChunk` (a `sendChunk` error goes to `setErr` and ends the
body), then closes the queue, drains the workers and finishes the large file.
Every normal return yields `getErr()` of the final state. -/
def closeBody (env : Env) (w0 : WState) : WState × CloseRes :=
  if w0.cidx = 0 then
    match simpleWriteFile env w0 with
    | SimpleRes.panicked => (w0, CloseRes.panicked)
    | SimpleRes.out => (w0, CloseRes.stuck)
    | SimpleRes.done w1 e =>
      let w2 := setErr e w1
      (w2, CloseRes.ret w2.err)
  else
    match w0.buf with
    | none => (w0, CloseRes.panicked)
    | some b => closeFlush env w0 b

/-- writer.go lines 304-326: `Close`.  The `done.Do` body runs at most once;
a repeated call only returns the stored error. -/
def close (env : Env) (w : WState) : WState × CloseRes :=
  if w.doneDone then (w, CloseRes.ret w.err)
  else closeBody env { w with doneDone := true }

/-- The ids of the chunks handed off, in trace order. -/
def chunkIds (tr : List Ev) : List Nat :=
  tr.filterMap fun e =>
    match e with
    | Ev.chunk i _ => some i
    | _ => none

/-- How many whole-object upload attempts the trace contains. -/
def simpleCount (tr : List Ev) : Nat :=
  (tr.filter fun e =>
    match e with
    | Ev.simpleAttempt _ => true
    | _ => false).length

/-- Total number of bytes across a sequence of `Write` payloads. -/
def totalLen (ps : List (List Byte)) : Nat := (ps.map List.length).sum

/-- Result of one `uploadPart` attempt (writer.go line 134): the byte count
`n` it reported and its error value. -/
structure PartAttempt where
  n : Nat
  err : Option Err
deriving DecidableEq

/-- How the `redo` retry loop of a worker ends for one chunk. -/
inductive ChunkLoopRes where
  /-- The attempt wrote the full length with no error: the worker proceeds to
  the next chunk. -/
  | success
  /-- A non-retryable failure: the worker runs `setErr(err)` (with the
  attempt's error value, possibly nil) and returns. -/
  | fatal (e : Option Err)
  /-- Re-acquiring the upload URL failed: the worker runs `setErr` with that
  error and returns. -/
  | urlFail (e : Err)
  /-- Model artefact: the environment's outcome list ran out mid-loop. -/
  | out
deriving DecidableEq

/-- writer.go lines 132-153: the `redo` retry loop of a worker, for one chunk
of length `clen`.  Sleep durations are in milliseconds (`time.Millisecond*15`
is 15, `time.Second*15` is 15000).  Each iteration consumes one `uploadPart`
outcome; a failure (`n ≠ clen` or a non-nil error) that the classifier deems
retryable sleeps for the current backoff, doubles it, caps it at 15000, and
consumes one `getUploadPartURL` outcome before retrying.  Returns the action
trace (attempts, sleeps, endpoint acquisitions in order) and the loop's end. -/
def chunkRedo (cls : Option Err → Bool) (clen : Nat) (sleep : Nat) :
    List PartAttempt → List (Option Err) → List RAct × ChunkLoopRes
  | [], _ => ([], ChunkLoopRes.out)
  | a :: as, urls =>
    if a.n = clen ∧ a.err = none then ([RAct.attempt], ChunkLoopRes.success)
    else if cls a.err then
      let sleep1 := sleep * 2
      let sleep2 := if sleep1 > 15000 then 15000 else sleep1
      match urls with
      | [] => ([RAct.attempt, RAct.sleep sleep], ChunkLoopRes.out)
      | some e :: _ =>
        ([RAct.attempt, RAct.sleep sleep, RAct.newURL], ChunkLoopRes.urlFail e)
      | none :: us =>
        let r := chunkRedo cls clen sleep2 as us
        (RAct.attempt :: RAct.sleep sleep :: RAct.newURL :: r.1, r.2)
    else ([RAct.attempt], ChunkLoopRes.fatal a.err)

/-- A chunk as a worker receives it (writer.go lines 28-31), together with the
hash of its buffer.  The hash function (`writeBuffer.Hash`, not under src/) is
abstracted: modelled from the spec as "a stable digest string per buffer",
carried here as a field. -/
structure WChunk where
  id : Nat
  data : List Byte
  hash : String
deriving DecidableEq

/-- What one iteration of the worker loop does with a dequeued chunk. -/
inductive WorkerRes where
  /-- `continue`: loop on to the next chunk. -/
  | next
  /-- The worker returned after calling `setErr` with this value. -/
  | exit (reported : Option Err)
  /-- Model artefact: environment outcomes exhausted. -/
  | out
deriving DecidableEq

/-- writer.go lines 113-155: the body of a worker's loop for one dequeued
chunk.  A chunk whose id is in `seen` is compared by hash: a mismatch reports
the resume-mismatch error and exits, a match is skipped with no upload
attempt.  Otherwise the chunk is uploaded through the `redo` retry loop
(`chunk.buf.Reader()` on the memory buffer always succeeds, so its error
branch is dead).  Returns the retry-loop action trace and the loop outcome. -/
def handleChunk (cls : Option Err → Bool) (seen : Nat → Option String)
    (ch : WChunk) (attempts : List PartAttempt) (urls : List (Option Err)) :
    List RAct × WorkerRes :=
  match seen ch.id with
  | some sha =>
    if sha ≠ ch.hash then ([], WorkerRes.exit (some resumeMismatchErr))
    else ([], WorkerRes.next)
  | none =>
    match chunkRedo cls ch.data.length 15 attempts urls with
    | (acts, ChunkLoopRes.success) => (acts, WorkerRes.next)
    | (acts, ChunkLoopRes.fatal e) => (acts, WorkerRes.exit e)
    | (acts, ChunkLoopRes.urlFail e) => (acts, WorkerRes.exit (some e))
    | (acts, ChunkLoopRes.out) => (acts, WorkerRes.out)

/-- The correspondence between the end of the worker's retry loop and the end
of the simple path's retry loop, used to compare the two loops. -/
def chunkToLoop : ChunkLoopRes → LoopRes
  | ChunkLoopRes.success => LoopRes.done none
  | ChunkLoopRes.fatal e => LoopRes.done e
  | ChunkLoopRes.urlFail e => LoopRes.done (some e)
  | ChunkLoopRes.out => LoopRes.out

/-- The capped exponential backoff value: `min (15 * 2 ^ k) 15000`
milliseconds for the k-th sleep (0-indexed). -/
def bk (k : Nat) : Nat := min (15 * 2 ^ k) 15000

/-- Attributes as passed to `WithAttrs` (the `Attrs` struct is not under
src/).  Modelled from the spec: content type, a metadata map (an association
list standing for the Go map, keys assumed distinct where a property needs
it), and the last-modified time, represented by its `UnixNano` value with the
zero time as `0` (`IsZero` becomes `= 0`). -/
structure GoAttrs where
  contentType : String
  lastModifiedNano : Int
  info : List (String × String)

/-- The writer fields `contentType` and `info` that `WithAttrs` assigns. -/
structure WAttr where
  contentType : String
  info : List (String × String)
deriving DecidableEq

/-- Go map assignment `m[k] = v` on the association-list model: replace the
binding of `k` if present, otherwise append it. -/
def mapSet (m : List (String × String)) (k v : String) :
    List (String × String) :=
  match m with
  | [] => [(k, v)]
  | (k', v') :: rest => if k' = k then (k, v) :: rest else (k', v') :: mapSet rest k v

/-- Go map indexing `m[k]` on the association-list model. -/
def lookupKey (m : List (String × String)) (k : String) : Option String :=
  match m with
  | [] => none
  | (k', v) :: rest => if k' = k then some v else lookupKey rest k

/-- The key added by `WithAttrs` (writer.go line 337). -/
def lastModifiedKey : String := "src_last_modified_millis"

/-- writer.go lines 330-340: `WithAttrs`.  Copies the caller's `Info` map
entry by entry into a fresh map (the `for k, v := range attrs.Info` loop),
then, if the copy has fewer than 10 entries and `LastModified` is non-zero,
stores the millisecond timestamp under `lastModifiedKey`.  Go's `int64`
division truncates toward zero, hence `Int.tdiv`. -/
def withAttrs (attrs : GoAttrs) : WAttr :=
  let copied := attrs.info.foldl (fun m kv => mapSet m kv.1 kv.2) []
  let info :=
    if copied.length < 10 ∧ attrs.lastModifiedNano ≠ 0 then
      mapSet copied lastModifiedKey (toString (Int.tdiv attrs.lastModifiedNano 1000000))
    else copied
  { contentType := attrs.contentType, info := info }

/-- Run a sequence of `setErr` calls in order. -/
def runSetErrs (w : WState) (es : List (Option Err)) : WState :=
  es.foldl (fun w e => setErr e w) w

/-- The first non-nil error in a sequence of `setErr` arguments. -/
def firstSome : List (Option Err) → Option Err
  | [] => none
  | none :: es => firstSome es
  | some e :: _ => some e

/-- A writer that has buffered one byte and holds a stored terminal error
with the context cancelled, about to be closed. -/
def w9 : WState :=
  { initW 2 with
    started := true
    csize := 2
    buf := some [5]
    err := some "boom"
    cancelled := true }

/-- A started writer with one buffered byte, chunk size 2, about to be
closed. -/
def wc6 : WState := { initW 2 with started := true, csize := 2, buf := some [7] }

/-- The state `close happyEnv wc6` produces. -/
def wc6closed : WState :=
  { wc6 with doneDone := true, objSet := true, trace := [Ev.simpleAttempt [7]] }

/-! ### Lemmas about the error sink -/

theorem setErr_none (w : WState) : setErr none w = w := rfl

theorem setErr_of_ne_none (e : Option Err) (w : WState) (h : ¬ w.err = none) :
    setErr e w = w := by
  cases e with
  | none => rfl
  | some x =>
    show (if w.err = none then _ else w) = w
    rw [if_neg h]

theorem setErr_some (x : Err) (w : WState) (h : w.err = none) :
    setErr (some x) w = { w with err := some x, cancelled := true } := by
  show (if w.err = none then _ else w) = _
  rw [if_pos h]

theorem runSetErrs_frozen (es : List (Option Err)) (w : WState)
    (h : ¬ w.err = none) : runSetErrs w es = w := by
  induction es generalizing w with
  | nil => rfl
  | cons e es ih =>
    show runSetErrs (setErr e w) es = w
    rw [setErr_of_ne_none e w h]
    exact ih w h

theorem runSetErrs_char (es : List (Option Err)) (w : WState)
    (h0 : w.err = none) (h1 : w.cancelled = false) :
    (runSetErrs w es).err = firstSome es ∧
    ((runSetErrs w es).cancelled = true ↔ ¬ firstSome es = none) := by
  induction es generalizing w with
  | nil =>
    refine ⟨h0, ?_⟩
    rw [show runSetErrs w [] = w from rfl, h1, firstSome]
    simp
  | cons e es ih =>
    cases e with
    | none =>
      show (runSetErrs (setErr none w) es).err = firstSome (none :: es) ∧ _
      rw [setErr_none, show firstSome (none :: es) = firstSome es from rfl]
      exact ih w h0 h1
    | some x =>
      have hstep : runSetErrs w (some x :: es)
          = { w with err := some x, cancelled := true } := by
        show runSetErrs (setErr (some x) w) es = _
        rw [setErr_some x w h0]
        exact runSetErrs_frozen es _ (by simp)
      rw [hstep]
      simp [firstSome]

/-! ### C4 -/

/-- C4: `setErr` of nil is a no-op; across any sequence of `setErr` calls on a
fresh error sink the first non-nil error is stored, every later `setErr`
leaves it unchanged (first writer wins), the cancellation signal has fired
exactly when some error is stored, and `getErr` returns the stored error. -/
theorem setErr_first_writer_wins (w : WState) (es : List (Option Err))
    (h0 : w.err = none) (h1 : w.cancelled = false) :
    (∀ w' : WState, setErr none w' = w') ∧
    (runSetErrs w es).err = firstSome es ∧
    ((runSetErrs w es).cancelled = true ↔ ¬ firstSome es = none) ∧
    (∀ es' : List (Option Err), ¬ firstSome es = none →
      (runSetErrs (runSetErrs w es) es').err = firstSome es) ∧
    (∀ w' : WState, getErr w' = w'.err) := by
  refine ⟨fun w' => rfl, (runSetErrs_char es w h0 h1).1,
    (runSetErrs_char es w h0 h1).2, ?_, fun w' => rfl⟩
  intro es' hne
  rw [runSetErrs_frozen es' _ (by rw [(runSetErrs_char es w h0 h1).1]; exact hne)]
  exact (runSetErrs_char es w h0 h1).1

/-- Witness for C4 at a concrete call sequence. -/
theorem setErr_first_writer_wins_witness :
    (runSetErrs (initW 0) [none, some "e1", some "e2"]).err = some "e1" ∧
    (runSetErrs (initW 0) [none, some "e1", some "e2"]).cancelled = true := by
  have h := setErr_first_writer_wins (initW 0) [none, some "e1", some "e2"] rfl rfl
  exact ⟨by rw [h.2.1]; rfl, h.2.2.1.mpr (by decide)⟩

/-! ### C3 -/

/-- C3: when a dequeued chunk's id is present in `SeenParts`, an equal hash
makes the worker skip the chunk with no upload call, and a differing hash
makes it report the terminal resume-mismatch error through `setErr` and stop
— in both cases with no upload attempt, no sleep and no retry, independently
of the classifier and of the environment. -/
theorem seen_chunk_skip_or_mismatch (cls : Option Err → Bool)
    (seen : Nat → Option String) (ch : WChunk) (attempts : List PartAttempt)
    (urls : List (Option Err)) (sha : String) (hseen : seen ch.id = some sha) :
    (sha = ch.hash →
      handleChunk cls seen ch attempts urls = ([], WorkerRes.next)) ∧
    (¬ sha = ch.hash →
      handleChunk cls seen ch attempts urls
        = ([], WorkerRes.exit (some resumeMismatchErr))) := by
  unfold handleChunk
  rw [hseen]
  constructor
  · intro h
    simp [h]
  · intro h
    simp [h]

/-- Witness for C3: the spec's resume scenarios with SeenParts 1 to abc. -/
theorem seen_chunk_skip_or_mismatch_witness :
    handleChunk (fun _ => true) (fun i => if i = 1 then some "abc" else none)
      ⟨1, [1, 2], "abc"⟩ [] [] = ([], WorkerRes.next) ∧
    handleChunk (fun _ => true) (fun i => if i = 1 then some "abc" else none)
      ⟨1, [1, 2], "xyz"⟩ [] [] = ([], WorkerRes.exit (some resumeMismatchErr)) :=
  ⟨(seen_chunk_skip_or_mismatch _ _ _ [] [] "abc" rfl).1 rfl,
   (seen_chunk_skip_or_mismatch _ _ _ [] [] "abc" rfl).2 (by decide)⟩

/-! ### C7 -/

/-- C7: the code at the claim's zero-work input.  `Close` called with no prior
`Write` reaches `simpleWriteFile`, which calls `Hash` on the nil buffer
interface and panics, instead of completing the simple path and returning
`getErr` as the claim states. -/
theorem close_without_write_panics :
    close happyEnv (initW 100000000)
      = ({ initW 100000000 with doneDone := true }, CloseRes.panicked) := by
  decide

/-! ### The backoff sequence -/

theorem bk_succ (j : Nat) :
    (if 15000 < bk j * 2 then 15000 else bk j * 2) = bk (j + 1) := by
  unfold bk
  rcases Nat.le_total (15 * 2 ^ j) 15000 with h | h
  · rw [Nat.min_eq_left h]
    have hps : 15 * 2 ^ (j + 1) = 15 * 2 ^ j * 2 := by
      rw [pow_succ]
      ring
    by_cases h2 : 15000 < 15 * 2 ^ j * 2
    · rw [if_pos h2, hps]
      rw [Nat.min_eq_right (by omega)]
    · rw [if_neg h2, hps]
      rw [Nat.min_eq_left (by omega)]
  · rw [Nat.min_eq_right h]
    rw [if_pos (by omega)]
    have hmono : (2 : Nat) ^ j ≤ 2 ^ (j + 1) :=
      Nat.pow_le_pow_right (by norm_num) (Nat.le_succ j)
    rw [Nat.min_eq_right (by omega)]

theorem bk_mono (k k' : Nat) (h : k ≤ k') : bk k ≤ bk k' := by
  unfold bk
  have hmono : (2 : Nat) ^ k ≤ 2 ^ k' := Nat.pow_le_pow_right (by norm_num) h
  exact min_le_min (by omega) le_rfl

theorem sleepsOf_attempt (l : List RAct) :
    sleepsOf (RAct.attempt :: l) = sleepsOf l := rfl

theorem sleepsOf_newURL (l : List RAct) :
    sleepsOf (RAct.newURL :: l) = sleepsOf l := rfl

theorem sleepsOf_sleep (ms : Nat) (l : List RAct) :
    sleepsOf (RAct.sleep ms :: l) = ms :: sleepsOf l := rfl

theorem attemptsOf_attempt (l : List RAct) :
    attemptsOf (RAct.attempt :: l) = attemptsOf l + 1 := rfl

theorem attemptsOf_sleep (ms : Nat) (l : List RAct) :
    attemptsOf (RAct.sleep ms :: l) = attemptsOf l := rfl

theorem attemptsOf_newURL (l : List RAct) :
    attemptsOf (RAct.newURL :: l) = attemptsOf l := rfl

/-- The sleeps the worker's retry loop performs, starting from backoff value
`bk j`, are `bk j, bk (j+1), bk (j+2), …` for as long as it retries. -/
theorem chunkRedo_sleep_sequence (cls : Option Err → Bool) (clen : Nat) :
    ∀ (attempts : List PartAttempt) (urls : List (Option Err)) (j k s : Nat),
      (sleepsOf (chunkRedo cls clen (bk j) attempts urls).1).get? k = some s →
      s = bk (j + k) := by
  intro attempts
  induction attempts with
  | nil =>
    intro urls j k s h
    simp [chunkRedo, sleepsOf] at h
  | cons a as ih =>
    intro urls j k s h
    rw [chunkRedo] at h
    by_cases h1 : a.n = clen ∧ a.err = none
    · rw [if_pos h1] at h
      simp [sleepsOf] at h
    · rw [if_neg h1] at h
      by_cases h2 : cls a.err
      · rw [if_pos h2] at h
        simp only [gt_iff_lt, bk_succ] at h
        cases urls with
        | nil =>
          simp only [sleepsOf_attempt, sleepsOf_sleep] at h
          cases k with
          | zero =>
            simp [sleepsOf] at h
            rw [Nat.add_zero]
            omega
          | succ k' => simp [sleepsOf] at h
        | cons u us =>
          cases u with
          | some e2 =>
            simp only [sleepsOf_attempt, sleepsOf_sleep] at h
            cases k with
            | zero =>
              simp [sleepsOf] at h
              rw [Nat.add_zero]
              omega
            | succ k' => simp [sleepsOf] at h
          | none =>
            simp only [sleepsOf_attempt, sleepsOf_sleep, sleepsOf_newURL] at h
            cases k with
            | zero =>
              simp at h
              rw [Nat.add_zero]
              omega
            | succ k' =>
              simp only [List.get?_cons_succ] at h
              have := ih us (j + 1) k' s h
              rw [this]
              congr 1
              omega
      · rw [if_neg h2] at h
        simp [sleepsOf] at h

/-- With `n` consecutive retryable failures followed by a success, the
worker's retry loop (started at backoff `bk j`) performs `n + 1` upload
attempts, sleeps `bk j, …, bk (j+n-1)`, and succeeds: there is no attempt
limit. -/
theorem chunkRedo_unbounded (cls : Option Err → Bool) (clen : Nat) (e : Err)
    (hcls : cls (some e) = true) :
    ∀ (n j : Nat),
      (chunkRedo cls clen (bk j)
        (List.replicate n ⟨clen, some e⟩ ++ [⟨clen, none⟩])
        (List.replicate n none)).2 = ChunkLoopRes.success ∧
      attemptsOf (chunkRedo cls clen (bk j)
        (List.replicate n ⟨clen, some e⟩ ++ [⟨clen, none⟩])
        (List.replicate n none)).1 = n + 1 ∧
      sleepsOf (chunkRedo cls clen (bk j)
        (List.replicate n ⟨clen, some e⟩ ++ [⟨clen, none⟩])
        (List.replicate n none)).1 = (List.range n).map (fun i => bk (j + i)) := by
  intro n
  induction n with
  | zero =>
    intro j
    simp only [List.replicate, List.nil_append]
    rw [chunkRedo]
    simp [attemptsOf, isAttempt, sleepsOf]
  | succ n ihn =>
    intro j
    simp only [List.replicate_succ, List.cons_append]
    rw [chunkRedo]
    rw [if_neg (by simp)]
    rw [if_pos hcls]
    simp only [gt_iff_lt, bk_succ]
    refine ⟨(ihn (j + 1)).1, ?_, ?_⟩
    · rw [attemptsOf_attempt, attemptsOf_sleep, attemptsOf_newURL]
      rw [(ihn (j + 1)).2.1]
    · rw [sleepsOf_attempt, sleepsOf_sleep, sleepsOf_newURL]
      rw [(ihn (j + 1)).2.2]
      rw [List.range_succ_eq_map]
      simp only [List.map_cons, List.map_map]
      refine congrArg (fun t => bk (j + 0) :: t) ?_
      apply List.map_congr_left
      intro i _
      simp only [Function.comp_apply]
      congr 1
      omega

/-! ### C5 -/

/-- C5: in the worker's per-chunk retry loop, the k-th backoff sleep
(0-indexed) equals `min (15 * 2 ^ k) 15000` milliseconds — so the sleeps
start at 15 ms, are non-decreasing, at most double, and are capped at 15 s —
and with n retryable failures followed by a success the loop performs n + 1
upload attempts and succeeds, for every n: there is no attempt limit. -/
theorem chunk_retry_backoff (cls : Option Err → Bool) (clen : Nat)
    (attempts : List PartAttempt) (urls : List (Option Err)) :
    (∀ k s,
      (sleepsOf (chunkRedo cls clen 15 attempts urls).1).get? k = some s →
      s = min (15 * 2 ^ k) 15000) ∧
    (∀ k k' s s', k ≤ k' →
      (sleepsOf (chunkRedo cls clen 15 attempts urls).1).get? k = some s →
      (sleepsOf (chunkRedo cls clen 15 attempts urls).1).get? k' = some s' →
      s ≤ s') ∧
    (∀ s, s ∈ sleepsOf (chunkRedo cls clen 15 attempts urls).1 →
      15 ≤ s ∧ s ≤ 15000) ∧
    (∀ (n : Nat) (e : Err), cls (some e) = true →
      (chunkRedo cls clen 15
        (List.replicate n ⟨clen, some e⟩ ++ [⟨clen, none⟩])
        (List.replicate n none)).2 = ChunkLoopRes.success ∧
      attemptsOf (chunkRedo cls clen 15
        (List.replicate n ⟨clen, some e⟩ ++ [⟨clen, none⟩])
        (List.replicate n none)).1 = n + 1 ∧
      sleepsOf (chunkRedo cls clen 15
        (List.replicate n ⟨clen, some e⟩ ++ [⟨clen, none⟩])
        (List.replicate n none)).1
        = (List.range n).map fun k => min (15 * 2 ^ k) 15000) := by
  have h15 : (15 : Nat) = bk 0 := by decide
  have hchar : ∀ k s,
      (sleepsOf (chunkRedo cls clen 15 attempts urls).1).get? k = some s →
      s = bk k := by
    intro k s h
    rw [h15] at h
    have := chunkRedo_sleep_sequence cls clen attempts urls 0 k s h
    rw [this]
    congr 1
    omega
  refine ⟨?_, ?_, ?_, ?_⟩
  · intro k s h
    exact hchar k s h
  · intro k k' s s' hk h h'
    rw [hchar k s h, hchar k' s' h']
    exact bk_mono k k' hk
  · intro s hs
    obtain ⟨k, hk⟩ := List.mem_iff_get?.mp hs
    rw [hchar k s hk]
    constructor
    · have h1 : 1 ≤ 2 ^ k := Nat.one_le_two_pow
      rw [bk, Nat.le_min]
      omega
    · exact Nat.min_le_right _ _
  · intro n e hcls
    have h := chunkRedo_unbounded cls clen e hcls n 0
    rw [h15]
    refine ⟨h.1, h.2.1, ?_⟩
    rw [h.2.2]
    apply List.map_congr_left
    intro i _
    rw [show (0 : Nat) + i = i from by omega]
    rfl

/-- Witness for C5: two retryable failures then success, with chunk length 1. -/
theorem chunk_retry_backoff_witness :
    (chunkRedo (fun _ => true) 1 15
      (List.replicate 2 ⟨1, some "t"⟩ ++ [⟨1, none⟩]) (List.replicate 2 none)).2
      = ChunkLoopRes.success ∧
    attemptsOf (chunkRedo (fun _ => true) 1 15
      (List.replicate 2 ⟨1, some "t"⟩ ++ [⟨1, none⟩]) (List.replicate 2 none)).1
      = 3 ∧
    sleepsOf (chunkRedo (fun _ => true) 1 15
      (List.replicate 2 ⟨1, some "t"⟩ ++ [⟨1, none⟩]) (List.replicate 2 none)).1
      = [15, 30] := by
  have h := (chunk_retry_backoff (fun _ => true) 1
      (List.replicate 2 ⟨1, some "t"⟩ ++ [⟨1, none⟩])
      (List.replicate 2 none)).2.2.2 2 "t" rfl
  refine ⟨h.1, h.2.1, ?_⟩
  rw [h.2.2]
  decide

/-! ### C8 -/

theorem nonSleep_attempt (l : List RAct) :
    nonSleep (RAct.attempt :: l) = RAct.attempt :: nonSleep l := rfl

theorem nonSleep_sleep (ms : Nat) (l : List RAct) :
    nonSleep (RAct.sleep ms :: l) = nonSleep l := rfl

theorem nonSleep_newURL (l : List RAct) :
    nonSleep (RAct.newURL :: l) = RAct.newURL :: nonSleep l := rfl

theorem sleepsOf_nonSleep (l : List RAct) : sleepsOf (nonSleep l) = [] := by
  induction l with
  | nil => rfl
  | cons a l ih =>
    cases a with
    | attempt => rw [nonSleep_attempt, sleepsOf_attempt]; exact ih
    | sleep ms => rw [nonSleep_sleep]; exact ih
    | newURL => rw [nonSleep_newURL, sleepsOf_newURL]; exact ih

/-- On aligned attempt outcomes, the simple path's retry loop performs
exactly the worker loop's actions with the sleeps removed, and ends
correspondingly, whatever the worker loop's backoff state. -/
theorem simpleRedo_eq_chunkRedo (cls : Option Err → Bool) (clen : Nat) :
    ∀ (errs urls : List (Option Err)) (sleep : Nat),
      simpleRedo cls errs urls
        = (nonSleep (chunkRedo cls clen sleep (errs.map fun e => ⟨clen, e⟩) urls).1,
           chunkToLoop (chunkRedo cls clen sleep (errs.map fun e => ⟨clen, e⟩) urls).2) := by
  intro errs
  induction errs with
  | nil =>
    intro urls sleep
    rfl
  | cons a as ih =>
    intro urls sleep
    cases a with
    | none =>
      rw [List.map_cons, chunkRedo, simpleRedo.eq_def]
      rw [if_pos ⟨rfl, rfl⟩]
      rfl
    | some e =>
      rw [List.map_cons, chunkRedo, simpleRedo.eq_def]
      rw [if_neg (by simp)]
      by_cases hc : cls (some e)
      · rw [if_pos hc]
        simp only [hc, if_true]
        cases urls with
        | nil => rfl
        | cons u us =>
          cases u with
          | some e2 => rfl
          | none =>
            simp only []
            rw [ih us]
            rfl
      · rw [if_neg hc]
        simp only [hc, if_false]
        rfl

/-- C8 counterexample: one retryable failure followed by success.  The worker
loop sleeps 15 ms before its retry; the simple whole-object loop retries with
no sleep at all, so the two loops do not apply the same backoff. -/
theorem simple_retry_no_backoff_cex :
    sleepsOf (chunkRedo (fun _ => true) 1 15 [⟨1, some "t"⟩, ⟨1, none⟩] [none]).1
      = [15] ∧
    sleepsOf (simpleRedo (fun _ => true) [some "t", none] [none]).1 = [] ∧
    ¬ sleepsOf (simpleRedo (fun _ => true) [some "t", none] [none]).1
        = sleepsOf (chunkRedo (fun _ => true) 1 15 [⟨1, some "t"⟩, ⟨1, none⟩] [none]).1 := by
  decide

/-- C8 amended: the simple whole-object retry loop applies the same
retryability classification and endpoint rotation as the worker's per-chunk
retry loop — on aligned outcome sequences it performs exactly the worker
loop's actions minus its sleeps and ends correspondingly — but it performs no
backoff sleep between retries, whereas the worker loop sleeps before each
retry. -/
theorem simple_retry_matches_chunk_except_backoff (cls : Option Err → Bool)
    (clen : Nat) (errs urls : List (Option Err)) :
    simpleRedo cls errs urls
      = (nonSleep (chunkRedo cls clen 15 (errs.map fun e => ⟨clen, e⟩) urls).1,
         chunkToLoop (chunkRedo cls clen 15 (errs.map fun e => ⟨clen, e⟩) urls).2) ∧
    sleepsOf (simpleRedo cls errs urls).1 = [] := by
  refine ⟨simpleRedo_eq_chunkRedo cls clen errs urls 15, ?_⟩
  rw [simpleRedo_eq_chunkRedo cls clen errs urls 15]
  exact sleepsOf_nonSleep _

/-! ### C10 -/

theorem lookupKey_mapSet_self (m : List (String × String)) (k v : String) :
    lookupKey (mapSet m k v) k = some v := by
  induction m with
  | nil => simp [mapSet, lookupKey]
  | cons kv rest ih =>
    obtain ⟨k', v'⟩ := kv
    by_cases h : k' = k
    · simp [mapSet, h, lookupKey]
    · simp [mapSet, h, lookupKey, ih]

theorem lookupKey_mapSet_ne (m : List (String × String)) (k v k2 : String)
    (h : ¬ k2 = k) : lookupKey (mapSet m k v) k2 = lookupKey m k2 := by
  have h' : ¬ k = k2 := fun hh => h hh.symm
  induction m with
  | nil => simp [mapSet, lookupKey, h']
  | cons kv rest ih =>
    obtain ⟨k', v'⟩ := kv
    by_cases hk : k' = k
    · subst hk
      simp [mapSet, lookupKey, h']
    · simp [mapSet, hk, lookupKey, ih]

theorem mapSet_of_absent (m : List (String × String)) (k v : String)
    (h : lookupKey m k = none) : mapSet m k v = m ++ [(k, v)] := by
  induction m with
  | nil => rfl
  | cons kv rest ih =>
    obtain ⟨k', v'⟩ := kv
    rw [lookupKey] at h
    by_cases hk : k' = k
    · rw [if_pos hk] at h
      exact absurd h (by simp)
    · rw [if_neg hk] at h
      rw [mapSet, if_neg hk, ih h]
      rfl

theorem lookupKey_append_single_none (acc : List (String × String))
    (k v k2 : String) (h1 : lookupKey acc k2 = none) (h2 : ¬ k = k2) :
    lookupKey (acc ++ [(k, v)]) k2 = none := by
  induction acc with
  | nil => simp [lookupKey, h2]
  | cons kv rest ih =>
    obtain ⟨a, b⟩ := kv
    rw [lookupKey] at h1
    by_cases ha : a = k2
    · rw [if_pos ha] at h1
      exact absurd h1 (by simp)
    · rw [if_neg ha] at h1
      rw [List.cons_append, lookupKey, if_neg ha]
      exact ih h1

theorem foldl_mapSet (l : List (String × String)) :
    ∀ acc : List (String × String),
      (∀ kv ∈ l, lookupKey acc kv.1 = none) → (l.map Prod.fst).Nodup →
      l.foldl (fun m kv => mapSet m kv.1 kv.2) acc = acc ++ l := by
  induction l with
  | nil =>
    intro acc _ _
    simp
  | cons kv rest ih =>
    intro acc hfresh hnd
    obtain ⟨k, v⟩ := kv
    simp only [List.map_cons, List.nodup_cons] at hnd
    obtain ⟨hk, hnd⟩ := hnd
    rw [List.foldl_cons, show mapSet acc (k, v).1 (k, v).2 = acc ++ [(k, v)] from
      mapSet_of_absent acc k v (hfresh (k, v) (by simp))]
    have hfresh2 : ∀ kv2 ∈ rest, lookupKey (acc ++ [(k, v)]) kv2.1 = none := by
      intro kv2 hkv2
      have hne : ¬ k = kv2.1 := by
        intro hh
        exact hk (hh ▸ List.mem_map_of_mem Prod.fst hkv2)
      exact lookupKey_append_single_none acc k v kv2.1
        (hfresh kv2 (List.mem_cons_of_mem _ hkv2)) hne
    rw [ih (acc ++ [(k, v)]) hfresh2 hnd]
    simp

theorem withAttrs_info (attrs : GoAttrs) :
    (withAttrs attrs).info =
      (if (attrs.info.foldl (fun m kv => mapSet m kv.1 kv.2) []).length < 10
          ∧ ¬ attrs.lastModifiedNano = 0
       then mapSet (attrs.info.foldl (fun m kv => mapSet m kv.1 kv.2) [])
         lastModifiedKey (toString (Int.tdiv attrs.lastModifiedNano 1000000))
       else attrs.info.foldl (fun m kv => mapSet m kv.1 kv.2) []) := rfl

/-- C10: `WithAttrs` copies the caller's Info map entry by entry — the stored
metadata agrees with the original map on every original key — and the extra
`src_last_modified_millis` entry is present iff the copied map has fewer than
10 entries and `LastModified` is non-zero; otherwise the timestamp is
silently dropped. -/
theorem withAttrs_spec (attrs : GoAttrs)
    (hnd : (attrs.info.map Prod.fst).Nodup)
    (habs : lookupKey attrs.info lastModifiedKey = none) :
    ((lookupKey (withAttrs attrs).info lastModifiedKey).isSome
      ↔ attrs.info.length < 10 ∧ ¬ attrs.lastModifiedNano = 0) ∧
    (∀ k, ¬ k = lastModifiedKey →
      lookupKey (withAttrs attrs).info k = lookupKey attrs.info k) ∧
    (withAttrs attrs).contentType = attrs.contentType := by
  have hcopy : attrs.info.foldl (fun m kv => mapSet m kv.1 kv.2) [] = attrs.info := by
    have h := foldl_mapSet attrs.info [] (fun kv _ => rfl) hnd
    simpa using h
  rw [withAttrs_info, hcopy]
  by_cases hcond : attrs.info.length < 10 ∧ ¬ attrs.lastModifiedNano = 0
  · rw [if_pos hcond]
    refine ⟨?_, ?_, rfl⟩
    · rw [lookupKey_mapSet_self]
      simp [hcond]
    · intro k hk
      exact lookupKey_mapSet_ne _ _ _ _ hk
  · rw [if_neg hcond]
    refine ⟨?_, fun k _ => rfl, rfl⟩
    rw [habs]
    simp [hcond]

/-! ### Branch equations and shapes for the close path -/

theorem sendChunkPost_cancelled (w : WState) (h : w.cancelled = true) :
    sendChunkPost w = (w, SendRes.fail ctxCanceledErr) := by
  unfold sendChunkPost
  rw [if_pos h]

theorem sendChunkPost_blocked (w : WState) (hc : w.cancelled = false)
    (hr : w.readyMade = false) : sendChunkPost w = (w, SendRes.blocked) := by
  unfold sendChunkPost
  rw [if_neg (by simp [hc]), if_pos hr]

theorem sendChunkPost_nilBuf (w : WState) (hc : w.cancelled = false)
    (hr : w.readyMade = true) (hb : w.buf = none) :
    sendChunkPost w = (w, SendRes.nilBuf) := by
  unfold sendChunkPost
  rw [if_neg (by simp [hc]), if_neg (by simp [hr]), hb]

theorem sendChunkPost_queue (w : WState) (b : List Byte) (hc : w.cancelled = false)
    (hr : w.readyMade = true) (hb : w.buf = some b) :
    sendChunkPost w
      = ({ w with
            trace := w.trace ++ [Ev.chunk (w.cidx + 1) b]
            cidx := w.cidx + 1
            buf := some [] }, SendRes.ok) := by
  unfold sendChunkPost
  rw [if_neg (by simp [hc]), if_neg (by simp [hr]), hb]

theorem sendChunk_once (env : Env) (w : WState) (h : w.onceDone = true) :
    sendChunk env w = sendChunkPost w := by
  unfold sendChunk
  rw [if_pos h]

theorem sendChunk_first_fail (env : Env) (w : WState) (e : Err)
    (h : w.onceDone = false) (he : env.largeRes = some e) :
    sendChunk env w = ({ w with onceDone := true }, SendRes.fail e) := by
  unfold sendChunk
  rw [if_neg (by simp [h]), he]

theorem sendChunk_first_ok (env : Env) (w : WState)
    (h : w.onceDone = false) (he : env.largeRes = none) :
    sendChunk env w
      = sendChunkPost { w with
          onceDone := true
          readyMade := true
          trace := w.trace ++ [Ev.poolStarted] } := by
  unfold sendChunk
  rw [if_neg (by simp [h]), he]

theorem close_done (env : Env) (w : WState) (h : w.doneDone = true) :
    close env w = (w, CloseRes.ret w.err) := by
  unfold close
  rw [if_pos h]

theorem close_not_done (env : Env) (w : WState) (h : w.doneDone = false) :
    close env w = closeBody env { w with doneDone := true } := by
  unfold close
  rw [if_neg (by simp [h])]

theorem sendChunkPost_shape (w : WState) :
    ∃ tr cx bf, (sendChunkPost w).1 = { w with trace := tr, cidx := cx, buf := bf } := by
  by_cases hc : w.cancelled = true
  · rw [sendChunkPost_cancelled w hc]
    exact ⟨w.trace, w.cidx, w.buf, rfl⟩
  · rw [Bool.not_eq_true] at hc
    by_cases hr : w.readyMade = true
    · cases hb : w.buf with
      | none =>
        rw [sendChunkPost_nilBuf w hc hr hb]
        exact ⟨w.trace, w.cidx, w.buf, rfl⟩
      | some b =>
        rw [sendChunkPost_queue w b hc hr hb]
        exact ⟨w.trace ++ [Ev.chunk (w.cidx + 1) b], w.cidx + 1, some [], rfl⟩
    · rw [Bool.not_eq_true] at hr
      rw [sendChunkPost_blocked w hc hr]
      exact ⟨w.trace, w.cidx, w.buf, rfl⟩

theorem sendChunk_shape (env : Env) (w : WState) :
    ∃ tr od rm cx bf, (sendChunk env w).1
      = { w with trace := tr, onceDone := od, readyMade := rm, cidx := cx, buf := bf } := by
  by_cases hd : w.onceDone = true
  · rw [sendChunk_once env w hd]
    obtain ⟨tr, cx, bf, h⟩ := sendChunkPost_shape w
    exact ⟨tr, w.onceDone, w.readyMade, cx, bf, by rw [h]⟩
  · rw [Bool.not_eq_true] at hd
    cases he : env.largeRes with
    | some e =>
      rw [sendChunk_first_fail env w e hd he]
      exact ⟨w.trace, true, w.readyMade, w.cidx, w.buf, rfl⟩
    | none =>
      rw [sendChunk_first_ok env w hd he]
      obtain ⟨tr, cx, bf, h⟩ := sendChunkPost_shape
        { w with
          onceDone := true
          readyMade := true
          trace := w.trace ++ [Ev.poolStarted] }
      exact ⟨tr, true, true, cx, bf, by rw [h]⟩

theorem simpleWriteFile_urls_nil (env : Env) (w : WState) (hu : env.urls = []) :
    simpleWriteFile env w = SimpleRes.out := by
  unfold simpleWriteFile
  rw [hu]

theorem simpleWriteFile_url_fail (env : Env) (w : WState) (e : Err)
    (us : List (Option Err)) (hu : env.urls = some e :: us) :
    simpleWriteFile env w = SimpleRes.done w (some e) := by
  unfold simpleWriteFile
  rw [hu]

theorem simpleWriteFile_nil_buf (env : Env) (w : WState)
    (us : List (Option Err)) (hu : env.urls = none :: us) (hb : w.buf = none) :
    simpleWriteFile env w = SimpleRes.panicked := by
  unfold simpleWriteFile
  rw [hu, hb]

theorem simpleWriteFile_run (env : Env) (w : WState) (us : List (Option Err))
    (b : List Byte) (hu : env.urls = none :: us) (hb : w.buf = some b) :
    simpleWriteFile env w = simpleLoopRun env.cls env.attempts us w b := by
  unfold simpleWriteFile
  rw [hu, hb]

theorem simpleLoopRun_done_shape (cls : Option Err → Bool)
    (attempts us : List (Option Err)) (w w1 : WState) (b : List Byte)
    (e : Option Err) (h : simpleLoopRun cls attempts us w b = SimpleRes.done w1 e) :
    ∃ tr ob, w1 = { w with trace := tr, objSet := ob } := by
  unfold simpleLoopRun at h
  rcases hred : simpleRedo cls attempts us with ⟨acts, r⟩
  rw [hred] at h
  cases r with
  | out => cases h
  | done eo =>
    cases eo with
    | none =>
      cases h
      exact ⟨_, _, rfl⟩
    | some e' =>
      cases h
      exact ⟨_, _, rfl⟩

theorem simpleWriteFile_done_shape (env : Env) (w w1 : WState) (e : Option Err)
    (h : simpleWriteFile env w = SimpleRes.done w1 e) :
    ∃ tr ob, w1 = { w with trace := tr, objSet := ob } := by
  cases hu : env.urls with
  | nil =>
    rw [simpleWriteFile_urls_nil env w hu] at h
    cases h
  | cons u us =>
    cases u with
    | some e2 =>
      rw [simpleWriteFile_url_fail env w e2 us hu] at h
      cases h
      exact ⟨w.trace, w.objSet, rfl⟩
    | none =>
      cases hb : w.buf with
      | none =>
        rw [simpleWriteFile_nil_buf env w us hu hb] at h
        cases h
      | some b =>
        rw [simpleWriteFile_run env w us b hu hb] at h
        obtain ⟨tr, ob, hh⟩ := simpleLoopRun_done_shape env.cls env.attempts us w w1 b e h
        exact ⟨tr, ob, by rw [hh, hb]⟩

theorem setErr_err_of_some (e2 : Option Err) (x : WState) (e : Err)
    (h : x.err = some e) : (setErr e2 x).err = some e := by
  rw [setErr_of_ne_none e2 x (by simp [h])]
  exact h

theorem setErr_shape (e : Option Err) (w : WState) :
    ∃ er cc, setErr e w = { w with err := er, cancelled := cc } := by
  cases e with
  | none => exact ⟨w.err, w.cancelled, rfl⟩
  | some x =>
    by_cases h : w.err = none
    · rw [setErr_some x w h]
      exact ⟨some x, true, rfl⟩
    · rw [setErr_of_ne_none _ _ h]
      exact ⟨w.err, w.cancelled, rfl⟩

theorem closeFinish_nilChan (env : Env) (w1 : WState) (hr : w1.readyMade = false) :
    closeFinish env w1 = (w1, CloseRes.panicked) := by
  unfold closeFinish
  rw [if_pos hr]

theorem closeFinish_fail (env : Env) (w1 : WState) (e : Err)
    (hr : w1.readyMade = true) (hf : env.finishRes = some e) :
    closeFinish env w1
      = (setErr (some e) (drainState w1),
         CloseRes.ret (setErr (some e) (drainState w1)).err) := by
  unfold closeFinish
  rw [if_neg (by simp [hr]), hf]

theorem closeFinish_ok (env : Env) (w1 : WState)
    (hr : w1.readyMade = true) (hf : env.finishRes = none) :
    closeFinish env w1
      = ({ drainState w1 with
            objSet := true
            trace := (drainState w1).trace ++ [Ev.finished] },
         CloseRes.ret w1.err) := by
  unfold closeFinish
  rw [if_neg (by simp [hr]), hf]
  rfl

theorem closeBody_simple (env : Env) (w0 w1 : WState) (e : Option Err)
    (h0 : w0.cidx = 0) (hs : simpleWriteFile env w0 = SimpleRes.done w1 e) :
    closeBody env w0 = (setErr e w1, CloseRes.ret (setErr e w1).err) := by
  unfold closeBody
  rw [if_pos h0, hs]

theorem closeBody_simple_panic (env : Env) (w0 : WState) (h0 : w0.cidx = 0)
    (hs : simpleWriteFile env w0 = SimpleRes.panicked) :
    closeBody env w0 = (w0, CloseRes.panicked) := by
  unfold closeBody
  rw [if_pos h0, hs]

theorem closeBody_simple_out (env : Env) (w0 : WState) (h0 : w0.cidx = 0)
    (hs : simpleWriteFile env w0 = SimpleRes.out) :
    closeBody env w0 = (w0, CloseRes.stuck) := by
  unfold closeBody
  rw [if_pos h0, hs]

theorem closeBody_buf_none (env : Env) (w0 : WState) (h0 : ¬ w0.cidx = 0)
    (hb : w0.buf = none) : closeBody env w0 = (w0, CloseRes.panicked) := by
  unfold closeBody
  rw [if_neg h0, hb]

theorem closeBody_multipart (env : Env) (w0 : WState) (b : List Byte)
    (h0 : ¬ w0.cidx = 0) (hb : w0.buf = some b) :
    closeBody env w0 = closeFlush env w0 b := by
  unfold closeBody
  rw [if_neg h0, hb]

theorem closeFlush_noflush (env : Env) (w0 : WState) (b : List Byte)
    (hlen : ¬ b.length > 0) : closeFlush env w0 b = closeFinish env w0 := by
  unfold closeFlush
  rw [if_neg hlen]

theorem closeFlush_ok (env : Env) (w0 w1 : WState) (b : List Byte)
    (hlen : b.length > 0) (hs : sendChunk env w0 = (w1, SendRes.ok)) :
    closeFlush env w0 b = closeFinish env w1 := by
  unfold closeFlush
  rw [if_pos hlen, hs]

theorem closeFlush_fail (env : Env) (w0 w1 : WState) (b : List Byte)
    (e : Err) (hlen : b.length > 0)
    (hs : sendChunk env w0 = (w1, SendRes.fail e)) :
    closeFlush env w0 b
      = (setErr (some e) w1, CloseRes.ret (setErr (some e) w1).err) := by
  unfold closeFlush
  rw [if_pos hlen, hs]

theorem closeFlush_blocked (env : Env) (w0 w1 : WState) (b : List Byte)
    (hlen : b.length > 0) (hs : sendChunk env w0 = (w1, SendRes.blocked)) :
    closeFlush env w0 b = (w1, CloseRes.blocked) := by
  unfold closeFlush
  rw [if_pos hlen, hs]

theorem closeFlush_nilBuf (env : Env) (w0 w1 : WState) (b : List Byte)
    (hlen : b.length > 0) (hs : sendChunk env w0 = (w1, SendRes.nilBuf)) :
    closeFlush env w0 b = (w1, CloseRes.stuck) := by
  unfold closeFlush
  rw [if_pos hlen, hs]

theorem closeFinish_ret_char (env : Env) (w1 w' : WState) (r : Option Err)
    (h : closeFinish env w1 = (w', CloseRes.ret r)) :
    r = w'.err ∧ w'.doneDone = w1.doneDone := by
  by_cases hr : w1.readyMade = true
  · cases hf : env.finishRes with
    | some e =>
      rw [closeFinish_fail env w1 e hr hf] at h
      injection h with h1 h2
      injection h2 with h3
      subst h1
      obtain ⟨er, cc, hse⟩ := setErr_shape (some e) (drainState w1)
      exact ⟨h3.symm, by rw [hse]; rfl⟩
    | none =>
      rw [closeFinish_ok env w1 hr hf] at h
      injection h with h1 h2
      injection h2 with h3
      subst h1
      exact ⟨h3.symm, rfl⟩
  · rw [Bool.not_eq_true] at hr
    rw [closeFinish_nilChan env w1 hr] at h
    injection h with h1 h2
    cases h2

theorem closeBody_ret_char (env : Env) (w0 w' : WState) (r : Option Err)
    (h : closeBody env w0 = (w', CloseRes.ret r)) :
    r = w'.err ∧ w'.doneDone = w0.doneDone := by
  by_cases h0 : w0.cidx = 0
  · cases hs : simpleWriteFile env w0 with
    | done w1 e =>
      rw [closeBody_simple env w0 w1 e h0 hs] at h
      injection h with h1 h2
      injection h2 with h3
      subst h1
      obtain ⟨er, cc, hse⟩ := setErr_shape e w1
      obtain ⟨tr, ob, hsh⟩ := simpleWriteFile_done_shape env w0 w1 e hs
      refine ⟨h3.symm, ?_⟩
      rw [hse, hsh]
    | panicked =>
      rw [closeBody_simple_panic env w0 h0 hs] at h
      injection h with h1 h2
      cases h2
    | out =>
      rw [closeBody_simple_out env w0 h0 hs] at h
      injection h with h1 h2
      cases h2
  · cases hb : w0.buf with
    | none =>
      rw [closeBody_buf_none env w0 h0 hb] at h
      injection h with h1 h2
      cases h2
    | some b =>
      rw [closeBody_multipart env w0 b h0 hb] at h
      by_cases hlen : b.length > 0
      · rcases hs : sendChunk env w0 with ⟨w1, s⟩
        obtain ⟨tr, od, rm, cx, bf, hsc⟩ := sendChunk_shape env w0
        rw [hs] at hsc
        have hw1 : w1 = { w0 with
            trace := tr
            onceDone := od
            readyMade := rm
            cidx := cx
            buf := bf } := hsc
        cases s with
        | ok =>
          rw [closeFlush_ok env w0 w1 b hlen hs] at h
          have hf := closeFinish_ret_char env w1 w' r h
          refine ⟨hf.1, ?_⟩
          rw [hf.2, hw1]
        | fail e =>
          rw [closeFlush_fail env w0 w1 b e hlen hs] at h
          injection h with h1 h2
          injection h2 with h3
          subst h1
          obtain ⟨er, cc, hse⟩ := setErr_shape (some e) w1
          refine ⟨h3.symm, ?_⟩
          rw [hse, hw1]
        | blocked =>
          rw [closeFlush_blocked env w0 w1 b hlen hs] at h
          injection h with h1 h2
          cases h2
        | nilBuf =>
          rw [closeFlush_nilBuf env w0 w1 b hlen hs] at h
          injection h with h1 h2
          cases h2
      · rw [closeFlush_noflush env w0 b hlen] at h
        exact closeFinish_ret_char env w0 w' r h

theorem close_ret_char (env : Env) (w w' : WState) (r : Option Err)
    (h : close env w = (w', CloseRes.ret r)) :
    r = w'.err ∧ w'.doneDone = true := by
  by_cases hd : w.doneDone = true
  · rw [close_done env w hd] at h
    injection h with h1 h2
    injection h2 with h3
    subst h1
    exact ⟨h3.symm, hd⟩
  · rw [Bool.not_eq_true] at hd
    rw [close_not_done env w hd] at h
    exact closeBody_ret_char env _ w' r h

theorem closeFinish_err_some (env : Env) (w1 w' : WState) (res : CloseRes)
    (e : Err) (h : closeFinish env w1 = (w', res)) (he : w1.err = some e) :
    w'.err = some e := by
  by_cases hr : w1.readyMade = true
  · cases hf : env.finishRes with
    | some e2 =>
      rw [closeFinish_fail env w1 e2 hr hf] at h
      injection h with h1 h2
      rw [← h1]
      exact setErr_err_of_some _ _ e he
    | none =>
      rw [closeFinish_ok env w1 hr hf] at h
      injection h with h1 h2
      rw [← h1]
      exact he
  · rw [Bool.not_eq_true] at hr
    rw [closeFinish_nilChan env w1 hr] at h
    injection h with h1 h2
    rw [← h1]
    exact he

theorem closeBody_err_some (env : Env) (w0 w' : WState) (res : CloseRes)
    (e : Err) (h : closeBody env w0 = (w', res)) (he : w0.err = some e) :
    w'.err = some e := by
  by_cases h0 : w0.cidx = 0
  · cases hs : simpleWriteFile env w0 with
    | done w1 eo =>
      rw [closeBody_simple env w0 w1 eo h0 hs] at h
      injection h with h1 h2
      obtain ⟨tr, ob, hsh⟩ := simpleWriteFile_done_shape env w0 w1 eo hs
      rw [← h1]
      apply setErr_err_of_some
      rw [hsh]
      exact he
    | panicked =>
      rw [closeBody_simple_panic env w0 h0 hs] at h
      injection h with h1 h2
      rw [← h1]
      exact he
    | out =>
      rw [closeBody_simple_out env w0 h0 hs] at h
      injection h with h1 h2
      rw [← h1]
      exact he
  · cases hb : w0.buf with
    | none =>
      rw [closeBody_buf_none env w0 h0 hb] at h
      injection h with h1 h2
      rw [← h1]
      exact he
    | some b =>
      rw [closeBody_multipart env w0 b h0 hb] at h
      by_cases hlen : b.length > 0
      · rcases hs : sendChunk env w0 with ⟨w1, s⟩
        obtain ⟨tr, od, rm, cx, bf, hsc⟩ := sendChunk_shape env w0
        rw [hs] at hsc
        have hw1 : w1 = { w0 with
            trace := tr
            onceDone := od
            readyMade := rm
            cidx := cx
            buf := bf } := hsc
        have he1 : w1.err = some e := by
          rw [hw1]
          exact he
        cases s with
        | ok =>
          rw [closeFlush_ok env w0 w1 b hlen hs] at h
          exact closeFinish_err_some env w1 w' res e h he1
        | fail e2 =>
          rw [closeFlush_fail env w0 w1 b e2 hlen hs] at h
          injection h with h1 h2
          rw [← h1]
          exact setErr_err_of_some _ _ e he1
        | blocked =>
          rw [closeFlush_blocked env w0 w1 b hlen hs] at h
          injection h with h1 h2
          rw [← h1]
          exact he1
        | nilBuf =>
          rw [closeFlush_nilBuf env w0 w1 b hlen hs] at h
          injection h with h1 h2
          rw [← h1]
          exact he1
      · rw [closeFlush_noflush env w0 b hlen] at h
        exact closeFinish_err_some env w0 w' res e h he

theorem close_err_some (env : Env) (w w' : WState) (res : CloseRes)
    (e : Err) (h : close env w = (w', res)) (he : w.err = some e) :
    w'.err = some e := by
  by_cases hd : w.doneDone = true
  · rw [close_done env w hd] at h
    injection h with h1 h2
    rw [← h1]
    exact he
  · rw [Bool.not_eq_true] at hd
    rw [close_not_done env w hd] at h
    exact closeBody_err_some env _ w' res e h he

/-! ### C6 -/

/-- C6: `Close` is idempotent: once a call has returned a value, any further
call (under any environment) returns the same state and the same value — the
finalization side effects do not run again. -/
theorem close_idempotent (env env2 : Env) (w w1 : WState) (r : Option Err)
    (h : close env w = (w1, CloseRes.ret r)) :
    close env2 w1 = (w1, CloseRes.ret r) := by
  obtain ⟨hr, hd⟩ := close_ret_char env w w1 r h
  rw [close_done env2 w1 hd, hr]

/-- Witness for C6: closing a one-byte writer twice. -/
theorem close_idempotent_witness :
    close happyEnv wc6closed = (wc6closed, CloseRes.ret none) :=
  close_idempotent happyEnv happyEnv wc6 wc6closed none (by decide)

/-! ### C9 -/

/-- C9 counterexample: at a writer whose terminal error is already stored,
the first `Close` does not short-circuit: it still performs the whole-object
upload attempt (the trace grows from empty), although it does return the
stored error. -/
theorem close_no_shortcircuit_cex :
    w9.err = some "boom" ∧ w9.trace = [] ∧
    ¬ (close happyEnv w9).1.trace = [] ∧
    (close happyEnv w9).2 = CloseRes.ret (some "boom") := by
  decide

/-- C9 amended: `Write` checks the stored terminal error first and
short-circuits, returning `(0, the stored error)` with no buffering,
hand-off or state change; `Close` does not short-circuit — its first call
still runs the finalization body — but it never overwrites the stored error
and every normal return yields it. -/
theorem write_shortcircuits_close_keeps_error (env : Env) (w : WState)
    (e : Err) (p : List Byte) (h : w.err = some e) :
    write env w p = WriteRes.ok w 0 (some e) ∧
    (∀ w' r, close env w = (w', CloseRes.ret r) → r = some e) := by
  constructor
  · show writeGo env (p.length + 1) w p = _
    rw [writeGo, h]
  · intro w' r hc
    have h1 := (close_ret_char env w w' r hc).1
    have h2 := close_err_some env w w' (CloseRes.ret r) e hc h
    rw [h1, h2]

/-- Witness for C9 at the `w9` writer. -/
theorem write_shortcircuits_close_keeps_error_witness :
    write happyEnv w9 [1] = WriteRes.ok w9 0 (some "boom") :=
  (write_shortcircuits_close_keeps_error happyEnv w9 "boom" [1] (by decide)).1

/-- Witness for C10: a one-entry metadata map and a non-zero timestamp. -/
theorem withAttrs_spec_witness :
    (lookupKey (withAttrs ⟨"ct", 5, [("a", "1")]⟩).info lastModifiedKey).isSome ∧
    lookupKey (withAttrs ⟨"ct", 5, [("a", "1")]⟩).info "a" = some "1" := by
  have h := withAttrs_spec ⟨"ct", 5, [("a", "1")]⟩ (by decide) (by decide)
  refine ⟨h.1.mpr ⟨by decide, by decide⟩, ?_⟩
  rw [h.2.1 "a" (by decide)]
  rfl


/-! ### The Write path under a healthy environment -/

theorem startDo_started (w : WState) (h : w.started = true) : startDo w = w := by
  unfold startDo
  rw [if_pos h]

theorem chunkIds_append (l1 l2 : List Ev) :
    chunkIds (l1 ++ l2) = chunkIds l1 ++ chunkIds l2 :=
  List.filterMap_append l1 l2 _

theorem simpleCount_append (l1 l2 : List Ev) :
    simpleCount (l1 ++ l2) = simpleCount l1 + simpleCount l2 := by
  unfold simpleCount
  rw [List.filter_append, List.length_append]

theorem writeGo_cont (env : Env) (fuel : Nat) (w : WState) (p b : List Byte)
    (herr : w.err = none) (hst : w.started = true) (hb : w.buf = some b) :
    writeGo env (fuel + 1) w p = writeCore env (writeGo env fuel) w b p := by
  rw [writeGo, herr]
  simp only [startDo_started w hst]
  rw [hb]

theorem writeCore_buffered (env : Env) (rec : WState → List Byte → WriteRes)
    (w : WState) (b p : List Byte) (hlt : p.length < w.csize - b.length) :
    writeCore env rec w b p
      = WriteRes.ok { w with buf := some (b ++ p) } p.length none := by
  simp only [writeCore]
  rw [if_pos hlt]

theorem writeCore_fill_ok (env : Env) (rec : WState → List Byte → WriteRes)
    (w w2 : WState) (b p : List Byte)
    (hge : ¬ p.length < w.csize - b.length)
    (hs : sendChunk env { w with buf := some (b ++ p.take (w.csize - b.length)) }
      = (w2, SendRes.ok)) :
    writeCore env rec w b p
      = (match rec w2 (p.drop (w.csize - b.length)) with
         | WriteRes.ok w' k e =>
           WriteRes.ok
             (match e with
              | some e' => setErr (some e') w'
              | none => w')
             ((w.csize - b.length) + k) e
         | r => r) := by
  simp only [writeCore]
  rw [if_neg hge, hs]

theorem sendChunk_happy (w1 : WState) (b1 : List Byte)
    (hcan : w1.cancelled = false) (honce : w1.onceDone = w1.readyMade)
    (hb : w1.buf = some b1) :
    ∃ w2 : WState,
      sendChunk happyEnv w1 = (w2, SendRes.ok) ∧
      w2.err = w1.err ∧ w2.cancelled = w1.cancelled ∧ w2.started = w1.started ∧
      w2.csize = w1.csize ∧ w2.chunkSize = w1.chunkSize ∧
      w2.doneDone = w1.doneDone ∧ w2.objSet = w1.objSet ∧
      w2.buf = some [] ∧ w2.cidx = w1.cidx + 1 ∧
      w2.onceDone = true ∧ w2.readyMade = true ∧
      chunkIds w2.trace = chunkIds w1.trace ++ [w1.cidx + 1] ∧
      simpleCount w2.trace = simpleCount w1.trace := by
  cases hOD : w1.onceDone with
  | true =>
    have hrm : w1.readyMade = true := by
      rw [← honce]
      exact hOD
    rw [sendChunk_once happyEnv w1 hOD, sendChunkPost_queue w1 b1 hcan hrm hb]
    refine ⟨_, rfl, rfl, rfl, rfl, rfl, rfl, rfl, rfl, rfl, rfl, hOD, hrm, ?_, ?_⟩
    · rw [chunkIds_append]
      rfl
    · rw [simpleCount_append]
      rfl
  | false =>
    rw [sendChunk_first_ok happyEnv w1 hOD rfl]
    rw [sendChunkPost_queue
      { w1 with
        onceDone := true
        readyMade := true
        trace := w1.trace ++ [Ev.poolStarted] } b1 hcan rfl hb]
    refine ⟨_, rfl, rfl, rfl, rfl, rfl, rfl, rfl, rfl, rfl, rfl, rfl, rfl, ?_, ?_⟩
    · rw [List.append_assoc, chunkIds_append]
      rfl
    · rw [List.append_assoc, simpleCount_append]
      rfl

theorem writeGo_happy (fuel : Nat) :
    ∀ (p : List Byte) (w : WState) (b : List Byte),
    w.err = none → w.cancelled = false → w.started = true →
    w.buf = some b → b.length < w.csize →
    w.onceDone = w.readyMade →
    (0 < w.cidx → w.readyMade = true) →
    p.length < fuel →
    ∃ w' : WState,
      writeGo happyEnv fuel w p = WriteRes.ok w' p.length none ∧
      w'.err = none ∧ w'.cancelled = false ∧ w'.started = true ∧
      w'.csize = w.csize ∧ w'.chunkSize = w.chunkSize ∧
      w'.doneDone = w.doneDone ∧ w'.objSet = w.objSet ∧
      w'.buf = some ((b ++ p).drop ((b.length + p.length) / w.csize * w.csize)) ∧
      w'.cidx = w.cidx + (b.length + p.length) / w.csize ∧
      w'.onceDone = w'.readyMade ∧
      (0 < w'.cidx → w'.readyMade = true) ∧
      chunkIds w'.trace
        = chunkIds w.trace ++ List.range' (w.cidx + 1) ((b.length + p.length) / w.csize) ∧
      simpleCount w'.trace = simpleCount w.trace := by
  induction fuel with
  | zero =>
    intro p w b _ _ _ _ _ _ _ hf
    exact absurd hf (by omega)
  | succ fuel ih =>
    intro p w b herr hcan hst hb hblen honce hrm hf
    rw [writeGo_cont happyEnv fuel w p b herr hst hb]
    by_cases hlt : p.length < w.csize - b.length
    · rw [writeCore_buffered happyEnv _ w b p hlt]
      have hq : (b.length + p.length) / w.csize = 0 := Nat.div_eq_of_lt (by omega)
      refine ⟨{ w with buf := some (b ++ p) }, rfl, herr, hcan, hst, rfl, rfl, rfl, rfl,
        ?_, ?_, honce, hrm, ?_, rfl⟩
      · rw [hq]
        simp
      · rw [hq]
        rfl
      · rw [hq]
        simp
    · have hC : 0 < w.csize := by omega
      have hl1 : 1 ≤ w.csize - b.length := by omega
      have hlp : w.csize - b.length ≤ p.length := by omega
      obtain ⟨w2, hs, h2err, h2can, h2st, h2cs, h2ck, h2dd, h2ob, h2buf, h2cidx,
        h2od, h2rm, h2ids, h2sc⟩ :=
        sendChunk_happy { w with buf := some (b ++ p.take (w.csize - b.length)) }
          (b ++ p.take (w.csize - b.length)) hcan honce rfl
      have h2err2 : w2.err = none := h2err.trans herr
      have h2can2 : w2.cancelled = false := h2can.trans hcan
      have h2st2 : w2.started = true := h2st.trans hst
      have h2cs2 : w2.csize = w.csize := h2cs
      have h2ck2 : w2.chunkSize = w.chunkSize := h2ck
      have h2dd2 : w2.doneDone = w.doneDone := h2dd
      have h2ob2 : w2.objSet = w.objSet := h2ob
      have h2cidx2 : w2.cidx = w.cidx + 1 := h2cidx
      have h2ids2 : chunkIds w2.trace = chunkIds w.trace ++ [w.cidx + 1] := h2ids
      have h2sc2 : simpleCount w2.trace = simpleCount w.trace := h2sc
      rw [writeCore_fill_ok happyEnv _ w w2 b p hlt hs]
      obtain ⟨w2b, heq, hberr, hbcan, hbst, hbcs, hbck, hbdd, hbob, hbbuf, hbcidx,
        hbod, hbrm, hbids, hbsc⟩ :=
        ih (p.drop (w.csize - b.length)) w2 [] h2err2 h2can2 h2st2 h2buf
          (by rw [h2cs2]; simpa using hC)
          (by rw [h2od, h2rm])
          (fun _ => h2rm)
          (by rw [List.length_drop]; omega)
      rw [heq]
      have hx : b.length + p.length = (p.length - (w.csize - b.length)) + w.csize := by
        omega
      have hq : (b.length + p.length) / w.csize
          = (p.length - (w.csize - b.length)) / w.csize + 1 := by
        rw [hx, Nat.add_div_right _ hC]
      refine ⟨w2b, ?_, hberr, hbcan, hbst, by rw [hbcs, h2cs2], by rw [hbck, h2ck2],
        by rw [hbdd, h2dd2], by rw [hbob, h2ob2], ?_, ?_, hbod, hbrm, ?_,
        by rw [hbsc, h2sc2]⟩
      · show WriteRes.ok w2b
            ((w.csize - b.length) + (p.drop (w.csize - b.length)).length) none
          = WriteRes.ok w2b p.length none
        rw [List.length_drop]
        congr 1
        omega
      · rw [hbbuf]
        refine congrArg some ?_
        simp only [List.nil_append, List.length_nil, Nat.zero_add, h2cs2,
          List.length_drop]
        rw [hq, Nat.add_mul, one_mul, List.drop_drop]
        conv_rhs => rw [show (p.length - (w.csize - b.length)) / w.csize * w.csize + w.csize
          = b.length + ((w.csize - b.length)
            + (p.length - (w.csize - b.length)) / w.csize * w.csize) from by omega]
        rw [List.drop_append]
      · rw [hbcidx, h2cidx2]
        simp only [List.length_nil, Nat.zero_add, h2cs2, List.length_drop]
        rw [hq]
        omega
      · rw [hbids, h2ids2, h2cidx2]
        simp only [List.length_nil, Nat.zero_add, h2cs2, List.length_drop]
        rw [hq, List.range'_succ]
        simp [List.append_assoc]

theorem totalLen_cons (p : List Byte) (ps : List (List Byte)) :
    totalLen (p :: ps) = p.length + totalLen ps := by
  simp [totalLen]

theorem runWrites_happy (ps : List (List Byte)) :
    ∀ (w : WState) (b : List Byte),
    w.err = none → w.cancelled = false → w.started = true →
    w.buf = some b → b.length < w.csize →
    w.onceDone = w.readyMade →
    (0 < w.cidx → w.readyMade = true) →
    ∃ w' : WState,
      runWrites happyEnv w ps = some w' ∧
      w'.err = none ∧ w'.cancelled = false ∧ w'.started = true ∧
      w'.csize = w.csize ∧ w'.chunkSize = w.chunkSize ∧
      w'.doneDone = w.doneDone ∧ w'.objSet = w.objSet ∧
      w'.buf = some ((b ++ ps.flatten).drop
        ((b.length + totalLen ps) / w.csize * w.csize)) ∧
      w'.cidx = w.cidx + (b.length + totalLen ps) / w.csize ∧
      w'.onceDone = w'.readyMade ∧
      (0 < w'.cidx → w'.readyMade = true) ∧
      chunkIds w'.trace
        = chunkIds w.trace ++ List.range' (w.cidx + 1) ((b.length + totalLen ps) / w.csize) ∧
      simpleCount w'.trace = simpleCount w.trace := by
  induction ps with
  | nil =>
    intro w b herr hcan hst hb hblen honce hrm
    have hq : (b.length + totalLen []) / w.csize = 0 := by
      refine Nat.div_eq_of_lt ?_
      simp only [totalLen, List.map_nil, List.sum_nil]
      omega
    refine ⟨w, rfl, herr, hcan, hst, rfl, rfl, rfl, rfl, ?_, ?_, honce, hrm, ?_, rfl⟩
    · rw [hq]
      simpa using hb
    · rw [hq]
      rfl
    · rw [hq]
      simp
  | cons p ps ih =>
    intro w b herr hcan hst hb hblen honce hrm
    have hC : 0 < w.csize := by omega
    obtain ⟨w1, heq1, h1err, h1can, h1st, h1cs, h1ck, h1dd, h1ob, h1buf, h1cidx,
      h1od, h1rm, h1ids, h1sc⟩ :=
      writeGo_happy (p.length + 1) p w b herr hcan hst hb hblen honce hrm (by omega)
    have hlen1 : ((b ++ p).drop ((b.length + p.length) / w.csize * w.csize)).length
        = (b.length + p.length) % w.csize := by
      rw [List.length_drop, List.length_append]
      have := Nat.mod_add_div' (b.length + p.length) w.csize
      omega
    obtain ⟨w', heq2, h2err, h2can, h2st, h2cs, h2ck, h2dd, h2ob, h2buf, h2cidx,
      h2od, h2rm, h2ids, h2sc⟩ :=
      ih w1 ((b ++ p).drop ((b.length + p.length) / w.csize * w.csize))
        h1err h1can h1st h1buf
        (by rw [hlen1, h1cs]; exact Nat.mod_lt _ hC)
        h1od h1rm
    have hrun : runWrites happyEnv w (p :: ps) = runWrites happyEnv w1 ps := by
      rw [runWrites]
      rw [show write happyEnv w p = writeGo happyEnv (p.length + 1) w p from rfl]
      rw [heq1]
    have hsplit : b.length + totalLen (p :: ps)
        = ((b.length + p.length) % w.csize + totalLen ps)
          + (b.length + p.length) / w.csize * w.csize := by
      rw [totalLen_cons]
      have := Nat.mod_add_div' (b.length + p.length) w.csize
      omega
    have hq : (b.length + totalLen (p :: ps)) / w.csize
        = ((b.length + p.length) % w.csize + totalLen ps) / w.csize
          + (b.length + p.length) / w.csize := by
      rw [hsplit, Nat.add_mul_div_right _ _ hC]
    refine ⟨w', by rw [hrun, heq2], h2err, h2can, h2st, by rw [h2cs, h1cs],
      by rw [h2ck, h1ck], by rw [h2dd, h1dd], by rw [h2ob, h1ob], ?_, ?_, h2od, h2rm,
      ?_, by rw [h2sc, h1sc]⟩
    · rw [h2buf]
      refine congrArg some ?_
      rw [hlen1, h1cs, List.flatten_cons]
      have hq2 : (b.length + totalLen (p :: ps)) / w.csize
          = (b.length + p.length) / w.csize
            + ((b.length + p.length) % w.csize + totalLen ps) / w.csize := by
        rw [hq]
        omega
      have hle : (b.length + p.length) / w.csize * w.csize ≤ (b ++ p).length := by
        rw [List.length_append]
        have := Nat.mod_add_div' (b.length + p.length) w.csize
        omega
      conv_rhs => rw [hq2, Nat.add_mul, ← List.append_assoc, ← List.drop_drop,
        List.drop_append_of_le_length hle]
    · rw [h2cidx, h1cidx, hlen1, h1cs, hq]
      omega
    · rw [h2ids, h1ids, h1cidx, hlen1, h1cs, hq, List.append_assoc]
      refine congrArg (fun t => chunkIds w.trace ++ t) ?_
      have hra := List.range'_append (w.cidx + 1) ((b.length + p.length) / w.csize)
        (((b.length + p.length) % w.csize + totalLen ps) / w.csize) 1
      rw [show w.cidx + 1 + 1 * ((b.length + p.length) / w.csize)
        = w.cidx + (b.length + p.length) / w.csize + 1 from by omega] at hra
      exact hra

theorem runWrites_buffered (ps : List (List Byte)) :
    ∀ (w : WState) (b : List Byte),
    w.err = none → w.started = true → w.buf = some b →
    b.length + totalLen ps < w.csize →
    runWrites happyEnv w ps = some { w with buf := some (b ++ ps.flatten) } := by
  induction ps with
  | nil =>
    intro w b _ _ hb _
    have hbuf : some (b ++ ([] : List (List Byte)).flatten) = w.buf := by
      rw [hb]
      simp
    show some w = _
    rw [hbuf]
  | cons p ps ihp =>
    intro w b herr hst hb hlen
    rw [totalLen_cons] at hlen
    rw [runWrites, show write happyEnv w p = writeGo happyEnv (p.length + 1) w p from rfl,
      writeGo_cont happyEnv p.length w p b herr hst hb,
      writeCore_buffered happyEnv _ w b p (by omega)]
    have hstep := ihp { w with buf := some (b ++ p) } (b ++ p) herr hst rfl
      (by rw [List.length_append]
          show b.length + p.length + totalLen ps < w.csize
          omega)
    show runWrites happyEnv { w with buf := some (b ++ p) } ps = _
    rw [hstep]
    rw [List.flatten_cons, ← List.append_assoc]

/-! ### C1 -/

/-- C1 counterexample: chunk size 2 and a single `Write` of exactly 2 bytes
(total length L equal to the chunk size C).  A chunk is handed off during
`Write` and `Close` finalizes a multipart upload with no simple-path upload,
refuting the claim that L ≤ C keeps the strategy Simple. -/
theorem simple_path_at_capacity_cex :
    (runWrites happyEnv (initW 2) [[0, 1]]).map (fun w1 =>
      (chunkIds (close happyEnv w1).1.trace, simpleCount (close happyEnv w1).1.trace))
      = some ([1], 0) ∧
    ¬ (runWrites happyEnv (initW 2) [[0, 1]]).map (fun w1 =>
      (chunkIds (close happyEnv w1).1.trace, simpleCount (close happyEnv w1).1.trace))
      = some ([], 1) := by
  decide

/-- C1 amended: for every upload whose total length is strictly below one
chunk's capacity (split across any non-empty sequence of `Write` calls), no
chunk is ever handed off and `Close` performs exactly one simple whole-object
upload carrying all written bytes, returning nil.  The strategy becomes
Multipart as soon as total bytes reach (not only exceed) one chunk's
capacity, per the counterexample. -/
theorem simple_path_below_capacity (cs : Nat) (ps : List (List Byte))
    (hne : ¬ ps = []) (hL : totalLen ps < effCsize cs) :
    ∃ w1 w2 : WState,
      runWrites happyEnv (initW cs) ps = some w1 ∧
      w1.trace = [] ∧
      close happyEnv w1 = (w2, CloseRes.ret none) ∧
      w2.trace = [Ev.simpleAttempt ps.flatten] := by
  cases ps with
  | nil => exact absurd rfl hne
  | cons p ps' =>
    have hrun := runWrites_buffered (p :: ps') (startDo (initW cs)) [] rfl rfl rfl
      (by simpa using hL)
    refine ⟨{ startDo (initW cs) with buf := some ([] ++ (p :: ps').flatten) }, _,
      ?_, rfl, rfl, rfl⟩
    rw [show runWrites happyEnv (initW cs) (p :: ps')
      = runWrites happyEnv (startDo (initW cs)) (p :: ps') from rfl]
    exact hrun

theorem effCsize_pos (cs : Nat) : 0 < effCsize cs := by
  unfold effCsize
  by_cases h : cs = 0
  · rw [if_pos h]
    omega
  · rw [if_neg h]
    omega

theorem chunkIds_drain_finish (t : List Ev) :
    chunkIds ((t ++ [Ev.queueClosed, Ev.drained]) ++ [Ev.finished]) = chunkIds t := by
  rw [chunkIds_append, chunkIds_append]
  simp [chunkIds]

theorem close_multipart_happy (w1 : WState) (bf : List Byte)
    (herr : w1.err = none) (hcan : w1.cancelled = false)
    (hdd : w1.doneDone = false) (hbuf : w1.buf = some bf)
    (hcidx : 0 < w1.cidx) (hod : w1.onceDone = w1.readyMade)
    (hrm : 0 < w1.cidx → w1.readyMade = true) :
    ∃ w2 : WState,
      close happyEnv w1 = (w2, CloseRes.ret none) ∧
      chunkIds w2.trace = chunkIds w1.trace
        ++ (if bf.length = 0 then [] else [w1.cidx + 1]) := by
  have hrm1 : w1.readyMade = true := hrm hcidx
  rw [close_not_done happyEnv w1 hdd]
  have h0 : ¬ ({ w1 with doneDone := true } : WState).cidx = 0 := by
    show ¬ w1.cidx = 0
    omega
  rw [closeBody_multipart happyEnv { w1 with doneDone := true } bf h0 hbuf]
  by_cases hlen : bf.length = 0
  · rw [closeFlush_noflush happyEnv { w1 with doneDone := true } bf (by omega)]
    rw [closeFinish_ok happyEnv { w1 with doneDone := true } hrm1 rfl]
    refine ⟨_, by rw [show ({ w1 with doneDone := true } : WState).err = none from herr],
      ?_⟩
    rw [if_pos hlen]
    show chunkIds ((w1.trace ++ [Ev.queueClosed, Ev.drained]) ++ [Ev.finished])
      = chunkIds w1.trace ++ []
    rw [chunkIds_drain_finish]
    simp
  · obtain ⟨w2c, hs, h2err, h2can, h2st, h2cs, h2ck, h2dd, h2ob, h2buf, h2cidx,
      h2od, h2rm, h2ids, h2sc⟩ :=
      sendChunk_happy { w1 with doneDone := true } bf hcan hod hbuf
    rw [closeFlush_ok happyEnv { w1 with doneDone := true } w2c bf (by omega) hs]
    rw [closeFinish_ok happyEnv w2c h2rm rfl]
    have h2err2 : w2c.err = none := h2err.trans herr
    refine ⟨_, by rw [h2err2], ?_⟩
    rw [if_neg hlen]
    show chunkIds ((w2c.trace ++ [Ev.queueClosed, Ev.drained]) ++ [Ev.finished])
      = chunkIds w1.trace ++ [w1.cidx + 1]
    rw [chunkIds_drain_finish, h2ids]

theorem flatten_length_totalLen (ps : List (List Byte)) :
    ps.flatten.length = totalLen ps := by
  induction ps with
  | nil => rfl
  | cons p ps ih => rw [List.flatten_cons, List.length_append, totalLen_cons, ih]

/-! ### C2 -/

/-- C2: for every upload with total length L above the chunk size C, however
L is split across `Write` calls, exactly L / C chunks are handed off during
the `Write` calls, `Close` flushes one more chunk iff L mod C is non-zero,
and the chunk ids handed off are exactly 1..k in ascending order with no
gaps. -/
theorem multipart_chunk_counts (cs : Nat) (ps : List (List Byte))
    (hL : effCsize cs < totalLen ps) :
    ∃ w1 w2 : WState,
      runWrites happyEnv (initW cs) ps = some w1 ∧
      chunkIds w1.trace = List.range' 1 (totalLen ps / effCsize cs) ∧
      close happyEnv w1 = (w2, CloseRes.ret none) ∧
      chunkIds w2.trace
        = List.range' 1 (totalLen ps / effCsize cs
            + (if totalLen ps % effCsize cs = 0 then 0 else 1)) := by
  have hC : 0 < effCsize cs := effCsize_pos cs
  obtain ⟨w1, hrun, h1err, h1can, h1st, h1cs, h1ck, h1dd, h1ob, h1buf, h1cidx,
    h1od, h1rm, h1ids, h1sc⟩ :=
    runWrites_happy ps (startDo (initW cs)) [] rfl rfl rfl rfl (by simpa using hC)
      rfl (by intro h; exact absurd (show (0 : Nat) < 0 from h) (by omega))
  have hq1 : 1 ≤ totalLen ps / effCsize cs := by
    rw [Nat.one_le_div_iff hC]
    omega
  have hcidx : w1.cidx = totalLen ps / effCsize cs := by
    rw [h1cidx]
    show 0 + (([] : List Byte).length + totalLen ps) / effCsize cs = _
    simp
  have hids1 : chunkIds w1.trace = List.range' 1 (totalLen ps / effCsize cs) := by
    rw [h1ids]
    show [] ++ List.range' (0 + 1) ((([] : List Byte).length + totalLen ps) / effCsize cs) = _
    simp
  have hbf : w1.buf
      = some (ps.flatten.drop (totalLen ps / effCsize cs * effCsize cs)) := by
    rw [h1buf]
    show some ((([] : List Byte) ++ ps.flatten).drop
      ((([] : List Byte).length + totalLen ps) / effCsize cs * effCsize cs)) = _
    simp
  have hbflen : (ps.flatten.drop (totalLen ps / effCsize cs * effCsize cs)).length
      = totalLen ps % effCsize cs := by
    rw [List.length_drop, flatten_length_totalLen]
    have := Nat.mod_add_div' (totalLen ps) (effCsize cs)
    omega
  obtain ⟨w2, hcl, hids2⟩ :=
    close_multipart_happy w1 _ h1err h1can (by rw [h1dd]; rfl) hbf
      (by rw [hcidx]; omega) h1od h1rm
  refine ⟨w1, w2, ?_, hids1, hcl, ?_⟩
  · cases ps with
    | nil =>
      rw [show totalLen ([] : List (List Byte)) = 0 from rfl] at hL
      omega
    | cons p ps' =>
      rw [show runWrites happyEnv (initW cs) (p :: ps')
        = runWrites happyEnv (startDo (initW cs)) (p :: ps') from rfl]
      exact hrun
  · rw [hids2, hids1, hbflen, hcidx]
    by_cases hmod : totalLen ps % effCsize cs = 0
    · rw [if_pos hmod, if_pos hmod]
      simp
    · rw [if_neg hmod, if_neg hmod]
      have hra := List.range'_append 1 (totalLen ps / effCsize cs) 1 1
      rw [show List.range' (1 + 1 * (totalLen ps / effCsize cs)) 1 1
        = [totalLen ps / effCsize cs + 1] from by rw [show 1 + 1 * (totalLen ps / effCsize cs)
          = totalLen ps / effCsize cs + 1 from by omega]; rfl] at hra
      rw [show (1 : Nat) + totalLen ps / effCsize cs
        = totalLen ps / effCsize cs + 1 from by omega] at hra
      exact hra

/-- Witness for C1 at chunk size 2 with a single 1-byte write. -/
theorem simple_path_below_capacity_witness :
    ∃ w1 w2 : WState,
      runWrites happyEnv (initW 2) [[7]] = some w1 ∧
      w1.trace = [] ∧
      close happyEnv w1 = (w2, CloseRes.ret none) ∧
      w2.trace = [Ev.simpleAttempt [7]] :=
  simple_path_below_capacity 2 [[7]] (by decide) (by decide)

/-- Witness for C2: 3 bytes at chunk size 2 — one chunk during Write, one
flushed at Close, ids 1 and 2. -/
theorem multipart_chunk_counts_witness :
    ∃ w1 w2 : WState,
      runWrites happyEnv (initW 2) [[0, 1, 2]] = some w1 ∧
      chunkIds w1.trace = List.range' 1 1 ∧
      close happyEnv w1 = (w2, CloseRes.ret none) ∧
      chunkIds w2.trace = List.range' 1 2 :=
  multipart_chunk_counts 2 [[0, 1, 2]] (by decide)

end Blazer
